import Mathlib

/-!
# Verification of the dff-sim physics/logic simulation engine

Shallow embedding of the core simulation engine of the `dff-sim` repository:
the voltage signal model (`src/physics.ts`, class `Signal`), the D flip-flop
state machine (`src/physics.ts`, class `DFlipFlop`), the clock-phase stepper
(`src/simulator.ts`, `SimulationApp.updatePhysics` and
`src/simulation.worker.ts`, `SimulationEngine.stepPhysics`), the voltage-spec
validation (`src/settings.ts` and the `main/ui` settings revision) and the
worker engine's `applySettings` operation (`src/simulation.worker.ts`).

Voltages are modelled as rationals (`ℚ`); the JavaScript `Math.random()` draws
are modelled as explicit input parameters (the Gaussian deviate fed into
`Signal.update`, and the uniform draw consumed by the metastable branch of
`DFlipFlop.process`).  The clock phase, which passes through `Math.sin` and
`Math.PI`, is modelled over `ℝ`.
-/

namespace DffSim

/-- The voltage specification record (`constants.ts`, `VoltageSpecs`), together
with the two smoothing constants that live in the same object in the revision
that `physics.ts` imports. -/
structure VoltageSpecConfig where
  logicHighMin : ℚ
  logicLowMax : ℚ
  outputHighMin : ℚ
  outputHighMax : ℚ
  outputLowMax : ℚ
  systemMax : ℚ
  clampMin : ℚ
  smoothingFactor : ℚ
  outputSmoothingFactor : ℚ
deriving DecidableEq

/-- The default `VoltageSpecs` constant object from `constants.ts`:
`logicHighMin: 1.0, logicLowMax: 0.6, outputHighMin: 1.8, outputHighMax: 2.0,
outputLowMax: 0.2, systemMax: 2.5, clampMin: -0.5, smoothingFactor: 0.5,
outputSmoothingFactor: 0.8`. -/
def defaultSpecs : VoltageSpecConfig where
  logicHighMin := 1
  logicLowMax := 3/5
  outputHighMin := 9/5
  outputHighMax := 2
  outputLowMax := 1/5
  systemMax := 5/2
  clampMin := -(1/2)
  smoothingFactor := 1/2
  outputSmoothingFactor := 4/5

/-- Constant `Simulation.baseFrameRate` from `constants.ts`. -/
def baseFrameRate : ℚ := 60

/-- Constant `Simulation.maxNoiseLevel` from `constants.ts`. -/
def maxNoiseLevel : ℚ := 4/5

/-- Constant `Simulation.defaultNoise` from `constants.ts` (percent). -/
def defaultNoise : ℚ := 10

/-- One voltage signal source (`physics.ts`, class `Signal`).  The private
Gaussian cache `_noiseCache` is a pure performance device for producing the
i.i.d. standard-normal stream; the stream itself is modelled as the explicit
`noise` argument of `Signal.update`, so the cache has no counterpart here. -/
structure Signal where
  currentValue : ℚ
  targetLogic : Fin 2
  noiseLevel : ℚ
  baseHigh : ℚ
  baseLow : ℚ
  smoothingFactor : ℚ
deriving DecidableEq

/-- The `Signal` constructor: `currentValue` starts at `baseLow`,
`targetLogic` at `0`, `noiseLevel` at `(defaultNoise / 100) * maxNoiseLevel`. -/
def mkSignal (baseHigh baseLow smoothingFactor : ℚ) : Signal where
  currentValue := baseLow
  targetLogic := 0
  noiseLevel := defaultNoise / 100 * maxNoiseLevel
  baseHigh := baseHigh
  baseLow := baseLow
  smoothingFactor := smoothingFactor

/-- Method `Signal.update` (`physics.ts` lines 56–96).  `noise` is the standard-normal
deviate produced by the Marsaglia polar sampler on this call.  Steps: pick the
noiseless target from `targetLogic`, add `noise * noiseLevel`, apply the RC
low-pass step `currentValue += (noisy − currentValue) * smoothingFactor`, then
clamp into `[clampMin, systemMax]`. -/
def Signal.update (spec : VoltageSpecConfig) (s : Signal) (noise : ℚ) : Signal :=
  let targetVoltage := if s.targetLogic = 1 then s.baseHigh else s.baseLow
  let noisyVoltage := targetVoltage + noise * s.noiseLevel
  let filtered := s.currentValue + (noisyVoltage - s.currentValue) * s.smoothingFactor
  { s with
    currentValue := max spec.clampMin (min spec.systemMax filtered) }

/-- The noiseless target voltage of a signal (`physics.ts` line 61). -/
def sTarget (s : Signal) : ℚ :=
  if s.targetLogic = 1 then s.baseHigh else s.baseLow

/-- The state of a signal after a whole sequence of `update` calls, one per
noise sample in the list. -/
def updateIter (spec : VoltageSpecConfig) (s : Signal) (noises : List ℚ) : Signal :=
  noises.foldl (fun t z => Signal.update spec t z) s

/-- One call of a driving sequence against a `Signal`: the external caller may
set `targetLogic` (clock generator / D toggle), `noiseLevel` (noise slider) and
`smoothingFactor` before the call, and the Gaussian sampler yields `noise`. -/
structure UpdateCall where
  targetLogic : Fin 2
  noiseLevel : ℚ
  smoothingFactor : ℚ
  noise : ℚ
deriving DecidableEq

/-- Apply one configured `update` call. -/
def applyCall (spec : VoltageSpecConfig) (s : Signal) (c : UpdateCall) : Signal :=
  Signal.update spec
    { s with
      targetLogic := c.targetLogic
      noiseLevel := c.noiseLevel
      smoothingFactor := c.smoothingFactor }
    c.noise

/-- The list of states observed after each call of a driving sequence. -/
def callTrace (spec : VoltageSpecConfig) (s : Signal) : List UpdateCall → List Signal
  | [] => []
  | c :: cs =>
      let s2 := applyCall spec s c
      s2 :: callTrace spec s2 cs

/-- The D flip-flop (`physics.ts`, class `DFlipFlop`): an owned output signal
`qSignal` and the last discriminated clock state. -/
structure DFlipFlop where
  qSignal : Signal
  lastClkState : Fin 2
deriving DecidableEq

/-- The `DFlipFlop` constructor: `qSignal` spans
`[outputLowMax / 2, (outputHighMin + outputHighMax) / 2]` with the crisper
output smoothing factor; `lastClkState` starts at 0. -/
def mkDFlipFlop (spec : VoltageSpecConfig) : DFlipFlop where
  qSignal := mkSignal ((spec.outputHighMin + spec.outputHighMax) / 2)
    (spec.outputLowMax / 2) spec.outputSmoothingFactor
  lastClkState := 0

/-- Step 1 of `DFlipFlop.process`: Schmitt-trigger clock discrimination.
Logic 1 strictly above `logicHighMin`, logic 0 strictly below `logicLowMax`,
otherwise hold the previous state. -/
def clkDiscriminate (spec : VoltageSpecConfig) (clkVoltage : ℚ) (last : Fin 2) : Fin 2 :=
  if clkVoltage > spec.logicHighMin then 1
  else if clkVoltage < spec.logicLowMax then 0
  else last

/-- Step 3 of `DFlipFlop.process`: sampling of D on a rising edge.  `metaRand`
is the `Math.random()` draw consumed by the metastable branch. -/
def sampleD (spec : VoltageSpecConfig) (dVoltage metaRand : ℚ) : Fin 2 :=
  if dVoltage > spec.logicHighMin then 1
  else if dVoltage < spec.logicLowMax then 0
  else if metaRand > 1/2 then 1 else 0

/-- The inputs of one `DFlipFlop.process` call, together with the two random
draws that call may consume (`metaRand` for the metastable branch, `qNoise`
for the embedded `qSignal.update`). -/
structure ProcessInput where
  dVoltage : ℚ
  clkVoltage : ℚ
  resetActive : Bool
  metaRand : ℚ
  qNoise : ℚ
deriving DecidableEq

/-- Whether this call sees a rising edge: previous discriminated state 0 and
newly discriminated clock logic 1 (`physics.ts` line 150). -/
def risingEdge (spec : VoltageSpecConfig) (ff : DFlipFlop) (clkVoltage : ℚ) : Prop :=
  ff.lastClkState = 0 ∧ clkDiscriminate spec clkVoltage ff.lastClkState = 1

instance (spec : VoltageSpecConfig) (ff : DFlipFlop) (clkVoltage : ℚ) :
    Decidable (risingEdge spec ff clkVoltage) := by
  unfold risingEdge; infer_instance

/-- Method `DFlipFlop.process` (`physics.ts` lines 128–172).  Reset has top priority
and returns immediately after forcing the output target low and updating the
output signal; otherwise the clock is discriminated, D is sampled on a rising
edge, the discriminated state is committed, and the output signal updated. -/
def DFlipFlop.process (spec : VoltageSpecConfig) (ff : DFlipFlop)
    (inp : ProcessInput) : DFlipFlop :=
  if inp.resetActive then
    { ff with
      qSignal := Signal.update spec { ff.qSignal with targetLogic := 0 } inp.qNoise }
  else
    let clkLogic := clkDiscriminate spec inp.clkVoltage ff.lastClkState
    let newTargetLogic :=
      if ff.lastClkState = 0 ∧ clkLogic = 1 then sampleD spec inp.dVoltage inp.metaRand
      else ff.qSignal.targetLogic
    { qSignal := Signal.update spec { ff.qSignal with targetLogic := newTargetLogic } inp.qNoise
      lastClkState := clkLogic }

/-- The voltage returned by a `process` call (the post-call `qSignal.currentValue`). -/
def DFlipFlop.processOutput (spec : VoltageSpecConfig) (ff : DFlipFlop)
    (inp : ProcessInput) : ℚ :=
  (ff.process spec inp).qSignal.currentValue

/-- The list of flip-flop states observed after each `process` call. -/
def processTrace (spec : VoltageSpecConfig) (ff : DFlipFlop) :
    List ProcessInput → List DFlipFlop
  | [] => []
  | i :: is =>
      let ff2 := ff.process spec i
      ff2 :: processTrace spec ff2 is

/-- The flip-flop state after a whole sequence of `process` calls. -/
def processIter (spec : VoltageSpecConfig) (ff : DFlipFlop)
    (is : List ProcessInput) : DFlipFlop :=
  is.foldl (fun f i => f.process spec i) ff

/-- One tick of the clock-phase accumulator
(`simulator.ts`, `updatePhysics` / `simulation.worker.ts`, `stepPhysics`):
advance by `clockSpeed * deltaTime * baseFrameRate`, then subtract `2π` when
the result exceeds `2π`. -/
noncomputable def stepClockPhase (phase clockSpeed dt : ℝ) : ℝ :=
  let p := phase + clockSpeed * dt * (baseFrameRate : ℝ)
  if p > 2 * Real.pi then p - 2 * Real.pi else p

/-- The square-wave clock target derived from the phase
(`signalClk.targetLogic = Math.sin(clockPhase) > 0 ? 1 : 0`). -/
noncomputable def clockTargetLogic (phase : ℝ) : Fin 2 :=
  if Real.sin phase > 0 then 1 else 0

/-- A candidate voltage-spec configuration as read from the settings form.
`parseFloat` on each field yields a number or `NaN`, and the `main/ui`
revision also guards against `undefined`; both "missing" and "not a number"
are modelled as `none`.  The form never carries `systemMax`, but
`Partial<VoltageSpecConfig>` admits it, so it is part of the candidate. -/
structure PartialSpec where
  logicHighMin : Option ℚ
  logicLowMax : Option ℚ
  outputHighMin : Option ℚ
  outputHighMax : Option ℚ
  outputLowMax : Option ℚ
  systemMax : Option ℚ
deriving DecidableEq

/-- JavaScript `a < b` where either side may be `NaN`/`undefined` (modelled as
`none`): any comparison against a non-number is false. -/
def jsLt : Option ℚ → Option ℚ → Bool
  | some a, some b => decide (a < b)
  | _, _ => false

/-- JavaScript `a > b` under the same `NaN` semantics. -/
def jsGt (a b : Option ℚ) : Bool := jsLt b a

/-- JavaScript `a >= b` under the same `NaN` semantics. -/
def jsGe : Option ℚ → Option ℚ → Bool
  | some a, some b => decide (b ≤ a)
  | _, _ => false

/-- Error message of the `main/ui` validate for a missing or non-numeric field. -/
def uiEmptyMsg : String := "value must not be empty"

/-- Error message of the `main/ui` validate for a range or ordering conflict. -/
def uiRangeMsg : String := "parameter range conflict"

/-- Error message of the `src/settings.ts` validate. -/
def settingsRangeMsg : String := "parameter range illegal"

/-- The `validate` function of the `main/ui` settings revision (the second
document of `src/physics.ts`, lines 267–303): first reject any missing or
non-numeric field (`isInvalid`), then check the range and ordering
comparisons against the defaults' `clampMin` / `systemMax`. -/
def uiValidate (dflt : VoltageSpecConfig) (v : PartialSpec) : Option String :=
  match v.logicHighMin, v.logicLowMax, v.outputHighMin, v.outputHighMax, v.outputLowMax with
  | some lhm, some llm, some ohm, some ohx, some olm =>
      if llm < dflt.clampMin ∨ olm < dflt.clampMin ∨
          lhm > dflt.systemMax ∨ ohx > dflt.systemMax ∨
          ohm < lhm ∨ ohx < ohm ∨ llm ≥ lhm ∨ olm ≥ llm then
        some uiRangeMsg
      else none
  | _, _, _, _, _ => some uiEmptyMsg

/-- The `validate` function of `src/settings.ts` (lines 92–115): the same
eight comparisons, but with no missing/NaN guard, so every comparison runs
under JavaScript `NaN` semantics. -/
def settingsValidate (dflt : VoltageSpecConfig) (v : PartialSpec) : Option String :=
  if jsLt v.logicLowMax (some dflt.clampMin) || jsLt v.outputLowMax (some dflt.clampMin) ||
      jsGt v.logicHighMin (some dflt.systemMax) || jsGt v.outputHighMax (some dflt.systemMax) ||
      jsLt v.outputHighMin v.logicHighMin || jsLt v.outputHighMax v.outputHighMin ||
      jsGe v.logicLowMax v.logicHighMin || jsGe v.outputLowMax v.logicLowMax then
    some settingsRangeMsg
  else none

/-- Merge step `Object.assign(VoltageSpecs, values)`: overwrite exactly the fields the
partial candidate carries. -/
def assignSpec (spec : VoltageSpecConfig) (v : PartialSpec) : VoltageSpecConfig :=
  { spec with
    logicHighMin := v.logicHighMin.getD spec.logicHighMin
    logicLowMax := v.logicLowMax.getD spec.logicLowMax
    outputHighMin := v.outputHighMin.getD spec.outputHighMin
    outputHighMax := v.outputHighMax.getD spec.outputHighMax
    outputLowMax := v.outputLowMax.getD spec.outputLowMax
    systemMax := v.systemMax.getD spec.systemMax }

/-- The settings-form submit handler of either revision: run `validate`
against the defaults; on error return without touching the active
configuration, otherwise assign all candidate fields onto it. -/
def submitSettings (validation : VoltageSpecConfig → PartialSpec → Option String)
    (dflt spec : VoltageSpecConfig) (v : PartialSpec) : VoltageSpecConfig :=
  if validation dflt v = none then assignSpec spec v else spec

/-- The conjunction of every constraint the spec's validation taxonomy names:
each candidate value inside `[clampMin, systemMax]` and the four ordering
inequalities intact. -/
def specConstraintsOk (dflt : VoltageSpecConfig) (lhm llm ohm ohx olm : ℚ) : Prop :=
  (dflt.clampMin ≤ lhm ∧ lhm ≤ dflt.systemMax) ∧
  (dflt.clampMin ≤ llm ∧ llm ≤ dflt.systemMax) ∧
  (dflt.clampMin ≤ ohm ∧ ohm ≤ dflt.systemMax) ∧
  (dflt.clampMin ≤ ohx ∧ ohx ≤ dflt.systemMax) ∧
  (dflt.clampMin ≤ olm ∧ olm ≤ dflt.systemMax) ∧
  llm < lhm ∧ lhm ≤ ohm ∧ ohm ≤ ohx ∧ olm < llm

/-- The worker-side engine state relevant to `applySettings`
(`simulation.worker.ts`, class `SimulationEngine`): the active spec copy, the
two input signals, the flip-flop and the clock phase.  The waveform buffer and
renderer are rendering collaborators outside the engine core. -/
structure Engine where
  specs : VoltageSpecConfig
  signalD : Signal
  signalClk : Signal
  dff : DFlipFlop
  clockPhase : ℝ

/-- The `SimulationEngine` constructor: D spans
`[logicLowMax / 2, (logicHighMin + systemMax) / 2]`, CLK spans
`[0, outputHighMax]`, both with the default smoothing factor, plus a fresh
flip-flop and zero phase. -/
noncomputable def mkEngine (spec : VoltageSpecConfig) : Engine where
  specs := spec
  signalD := mkSignal ((spec.logicHighMin + spec.systemMax) / 2)
    (spec.logicLowMax / 2) spec.smoothingFactor
  signalClk := mkSignal spec.outputHighMax 0 spec.smoothingFactor
  dff := mkDFlipFlop spec
  clockPhase := 0

/-- Helper `snapSignal` inside `applySettings`: force `currentValue` to the
steady-state level matching the current `targetLogic`. -/
def snapSignal (s : Signal) : Signal :=
  { s with currentValue := if s.targetLogic = 1 then s.baseHigh else s.baseLow }

/-- Method `SimulationEngine.applySettings` (`simulation.worker.ts` lines 205–245):
merge the partial spec into the active copy, re-derive the `baseHigh` /
`baseLow` pairs of D, CLK and Q (CLK's `baseLow` is left as it is — it is
always 0), snap all three signals' `currentValue` to their steady-state
levels, and reset the clock phase to 0.  The buffer reset is a rendering
side effect outside the engine core. -/
noncomputable def Engine.applySettings (e : Engine) (settings : PartialSpec) : Engine :=
  let sp := assignSpec e.specs settings
  let d2 := { e.signalD with
    baseHigh := (sp.logicHighMin + sp.systemMax) / 2
    baseLow := sp.logicLowMax / 2 }
  let clk2 := { e.signalClk with baseHigh := sp.outputHighMax }
  let q2 := { e.dff.qSignal with
    baseHigh := (sp.outputHighMin + sp.outputHighMax) / 2
    baseLow := sp.outputLowMax / 2 }
  { specs := sp
    signalD := snapSignal d2
    signalClk := snapSignal clk2
    dff := { e.dff with qSignal := snapSignal q2 }
    clockPhase := 0 }

end DffSim

namespace DffSim

theorem update_currentValue (spec : VoltageSpecConfig) (s : Signal) (noise : ℚ) :
    (Signal.update spec s noise).currentValue =
      max spec.clampMin (min spec.systemMax
        (s.currentValue +
          ((if s.targetLogic = 1 then s.baseHigh else s.baseLow) + noise * s.noiseLevel
            - s.currentValue) * s.smoothingFactor)) := rfl

theorem update_fields (spec : VoltageSpecConfig) (s : Signal) (noise : ℚ) :
    (Signal.update spec s noise).targetLogic = s.targetLogic ∧
    (Signal.update spec s noise).noiseLevel = s.noiseLevel ∧
    (Signal.update spec s noise).baseHigh = s.baseHigh ∧
    (Signal.update spec s noise).baseLow = s.baseLow ∧
    (Signal.update spec s noise).smoothingFactor = s.smoothingFactor :=
  ⟨rfl, rfl, rfl, rfl, rfl⟩

/-- After any single `update` call, from any pre-state, the clamp puts
`currentValue` into `[clampMin, systemMax]`. -/
theorem update_clamped (spec : VoltageSpecConfig) (hcs : spec.clampMin ≤ spec.systemMax)
    (s : Signal) (noise : ℚ) :
    spec.clampMin ≤ (Signal.update spec s noise).currentValue ∧
      (Signal.update spec s noise).currentValue ≤ spec.systemMax := by
  rw [update_currentValue]
  constructor
  · exact le_max_left _ _
  · exact max_le hcs (min_le_left _ _)

/-- Claim C1: for every sequence of calls to `Signal.update`, with any
`noiseLevel ≥ 0`, any `targetLogic` in `{0,1}` and any `smoothingFactor` in
`(0,1]` at each call, the invariant `clampMin ≤ currentValue ≤ systemMax`
holds after every call. -/
theorem signal_clamping_invariant (spec : VoltageSpecConfig)
    (hcs : spec.clampMin ≤ spec.systemMax) (s : Signal) (calls : List UpdateCall)
    (hvalid : ∀ c ∈ calls,
      0 ≤ c.noiseLevel ∧ 0 < c.smoothingFactor ∧ c.smoothingFactor ≤ 1) :
    ∀ s' ∈ callTrace spec s calls,
      spec.clampMin ≤ s'.currentValue ∧ s'.currentValue ≤ spec.systemMax := by
  induction calls generalizing s with
  | nil => intro s' h; cases h
  | cons c cs ih =>
    intro s' h
    rw [callTrace] at h
    rcases List.mem_cons.mp h with h | h
    · subst h
      exact update_clamped spec hcs _ c.noise
    · exact ih (applyCall spec s c) (fun d hd => hvalid d (List.mem_cons_of_mem c hd)) s' h

/-- Witness for C1 at a concrete driving sequence. -/
theorem signal_clamping_invariant_witness :
    defaultSpecs.clampMin ≤ defaultSpecs.systemMax ∧
    (∀ c ∈ [(⟨1, 1/10, 1/2, 2⟩ : UpdateCall), ⟨0, 1/5, 1, -3⟩],
      0 ≤ c.noiseLevel ∧ 0 < c.smoothingFactor ∧ c.smoothingFactor ≤ 1) ∧
    ∀ s' ∈ callTrace defaultSpecs (mkSignal 2 0 (1/2))
        [(⟨1, 1/10, 1/2, 2⟩ : UpdateCall), ⟨0, 1/5, 1, -3⟩],
      defaultSpecs.clampMin ≤ s'.currentValue ∧ s'.currentValue ≤ defaultSpecs.systemMax := by
  have h1 : defaultSpecs.clampMin ≤ defaultSpecs.systemMax := by norm_num [defaultSpecs]
  have h2 : ∀ c ∈ [(⟨1, 1/10, 1/2, 2⟩ : UpdateCall), ⟨0, 1/5, 1, -3⟩],
      0 ≤ c.noiseLevel ∧ 0 < c.smoothingFactor ∧ c.smoothingFactor ≤ 1 := by
    intro c hc
    rcases List.mem_cons.mp hc with h | hc
    · subst h; norm_num
    rcases List.mem_cons.mp hc with h | hc
    · subst h; norm_num
    · cases hc
  exact ⟨h1, h2, signal_clamping_invariant defaultSpecs h1 (mkSignal 2 0 (1/2)) _ h2⟩

theorem process_reset_eq (spec : VoltageSpecConfig) (ff : DFlipFlop)
    (inp : ProcessInput) (hreset : inp.resetActive = true) :
    ff.process spec inp =
      { ff with
        qSignal := Signal.update spec { ff.qSignal with targetLogic := 0 } inp.qNoise } := by
  simp [DFlipFlop.process, hreset]

/-- Claim C2: with `resetActive = true` — regardless of D, CLK and the random
draws, hence also at a simultaneous valid rising edge with D high —
`qSignal.targetLogic` is forced to 0, `qSignal.update` is called, the method
returns the reset-path state untouched otherwise, `lastClkState` is not
committed, and no clock discrimination, edge detection or D sampling takes
place (the result does not depend on `dVoltage`, `clkVoltage` or `metaRand`). -/
theorem process_reset_overrides (spec : VoltageSpecConfig) (ff : DFlipFlop)
    (inp : ProcessInput) (hreset : inp.resetActive = true) :
    (ff.process spec inp).qSignal.targetLogic = 0 ∧
    ff.process spec inp =
      { ff with
        qSignal := Signal.update spec { ff.qSignal with targetLogic := 0 } inp.qNoise } ∧
    (ff.process spec inp).lastClkState = ff.lastClkState ∧
    ∀ d clk r : ℚ,
      ff.process spec { inp with dVoltage := d, clkVoltage := clk, metaRand := r } =
        ff.process spec inp := by
  refine ⟨?_, process_reset_eq spec ff inp hreset, ?_, ?_⟩
  · rw [process_reset_eq spec ff inp hreset]; rfl
  · rw [process_reset_eq spec ff inp hreset]
  · intro d clk r
    rw [process_reset_eq spec ff inp hreset,
      process_reset_eq spec ff { inp with dVoltage := d, clkVoltage := clk, metaRand := r }
        hreset]

/-- Witness for C2: reset wins even at a valid rising edge with D high
(D = 2.0 V > `logicHighMin`, CLK = 2.0 V, `lastClkState = 0`). -/
theorem process_reset_overrides_witness :
    ((mkDFlipFlop defaultSpecs).process defaultSpecs
      ⟨2, 2, true, 0, 0⟩).qSignal.targetLogic = 0 :=
  (process_reset_overrides defaultSpecs (mkDFlipFlop defaultSpecs) ⟨2, 2, true, 0, 0⟩ rfl).1

end DffSim

namespace DffSim

theorem process_lastClkState (spec : VoltageSpecConfig) (ff : DFlipFlop)
    (inp : ProcessInput) (hreset : inp.resetActive = false) :
    (ff.process spec inp).lastClkState =
      clkDiscriminate spec inp.clkVoltage ff.lastClkState := by
  simp [DFlipFlop.process, hreset]

theorem risingEdge_iff (spec : VoltageSpecConfig) (ff : DFlipFlop) (clk : ℚ) :
    risingEdge spec ff clk ↔
      (ff.lastClkState = 0 ∧ clkDiscriminate spec clk ff.lastClkState = 1) := Iff.rfl

theorem process_targetLogic (spec : VoltageSpecConfig) (ff : DFlipFlop)
    (inp : ProcessInput) (hreset : inp.resetActive = false) :
    (ff.process spec inp).qSignal.targetLogic =
      if ff.lastClkState = 0 ∧ clkDiscriminate spec inp.clkVoltage ff.lastClkState = 1
      then sampleD spec inp.dVoltage inp.metaRand
      else ff.qSignal.targetLogic := by
  simp [DFlipFlop.process, Signal.update, hreset]

theorem sampleD_high (spec : VoltageSpecConfig) (d r : ℚ) (hd : d > spec.logicHighMin) :
    sampleD spec d r = 1 := by
  rw [sampleD, if_pos hd]

end DffSim

namespace DffSim

/-- Claim C4: the Schmitt-trigger discrimination classifies strictly-above
`logicHighMin` as 1, strictly-below `logicLowMax` as 0, and holds
`lastClkState` in between; and on the concrete CLK sequence
`[0.0, 0.8, 0.8, 2.0]` (defaults `logicHighMin = 1.0`, `logicLowMax = 0.6`)
the discriminated clock stays 0 through both 0.8 V samples, becomes 1 only at
the 2.0 V sample, and no rising edge is seen inside the dead zone. -/
theorem clk_discrimination_hysteresis (spec : VoltageSpecConfig)
    (horder : spec.logicLowMax ≤ spec.logicHighMin) (v : ℚ) (last : Fin 2) :
    (v > spec.logicHighMin → clkDiscriminate spec v last = 1) ∧
    (v < spec.logicLowMax → clkDiscriminate spec v last = 0) ∧
    (spec.logicLowMax ≤ v → v ≤ spec.logicHighMin → clkDiscriminate spec v last = last) ∧
    ((processTrace defaultSpecs (mkDFlipFlop defaultSpecs)
        [⟨0, 0, false, 0, 0⟩, ⟨0, 4/5, false, 0, 0⟩, ⟨0, 4/5, false, 0, 0⟩,
          ⟨0, 2, false, 0, 0⟩]).map (fun f => f.lastClkState) = [0, 0, 0, 1] ∧
      ¬ risingEdge defaultSpecs (mkDFlipFlop defaultSpecs) 0 ∧
      ¬ risingEdge defaultSpecs
        (processIter defaultSpecs (mkDFlipFlop defaultSpecs) [⟨0, 0, false, 0, 0⟩]) (4/5) ∧
      ¬ risingEdge defaultSpecs
        (processIter defaultSpecs (mkDFlipFlop defaultSpecs)
          [⟨0, 0, false, 0, 0⟩, ⟨0, 4/5, false, 0, 0⟩]) (4/5) ∧
      risingEdge defaultSpecs
        (processIter defaultSpecs (mkDFlipFlop defaultSpecs)
          [⟨0, 0, false, 0, 0⟩, ⟨0, 4/5, false, 0, 0⟩, ⟨0, 4/5, false, 0, 0⟩]) 2) := by
  refine ⟨fun h => by rw [clkDiscriminate, if_pos h], ?_, ?_, ?_⟩
  · intro h
    have hnh : ¬ v > spec.logicHighMin := not_lt.mpr (le_of_lt (lt_of_lt_of_le h horder))
    rw [clkDiscriminate, if_neg hnh, if_pos h]
  · intro h1 h2
    rw [clkDiscriminate, if_neg (not_lt.mpr h2), if_neg (not_lt.mpr h1)]
  · constructor
    · norm_num [processTrace, DFlipFlop.process, clkDiscriminate, mkDFlipFlop, mkSignal,
        sampleD, defaultSpecs]
    refine ⟨?_, ?_, ?_, ?_⟩ <;>
      norm_num [risingEdge, processIter, DFlipFlop.process, clkDiscriminate, mkDFlipFlop,
        mkSignal, sampleD, defaultSpecs]

end DffSim

namespace DffSim

/-- Witness for C4: concrete instances of the three discrimination branches. -/
theorem clk_discrimination_hysteresis_witness :
    defaultSpecs.logicLowMax ≤ defaultSpecs.logicHighMin ∧
    ((2:ℚ) > defaultSpecs.logicHighMin ∧ clkDiscriminate defaultSpecs 2 0 = 1) ∧
    ((4/5 : ℚ) ≥ defaultSpecs.logicLowMax ∧ (4/5 : ℚ) ≤ defaultSpecs.logicHighMin ∧
      clkDiscriminate defaultSpecs (4/5) 0 = 0) := by
  have horder : defaultSpecs.logicLowMax ≤ defaultSpecs.logicHighMin := by
    norm_num [defaultSpecs]
  have h1 : (2:ℚ) > defaultSpecs.logicHighMin := by norm_num [defaultSpecs]
  have h2 : (4/5 : ℚ) ≥ defaultSpecs.logicLowMax := by norm_num [defaultSpecs]
  have h3 : (4/5 : ℚ) ≤ defaultSpecs.logicHighMin := by norm_num [defaultSpecs]
  exact ⟨horder, ⟨h1, (clk_discrimination_hysteresis defaultSpecs horder 2 0).1 h1⟩,
    ⟨h2, h3, (clk_discrimination_hysteresis defaultSpecs horder (4/5) 0).2.2.1 h2 h3⟩⟩

/-- Claim C10: strict comparisons put the exact threshold voltages in the
undefined zone: CLK at exactly `logicHighMin` or exactly `logicLowMax` holds
`lastClkState`, and D at exactly either threshold sampled on a rising edge
takes the metastable coin-flip branch (`targetLogic = 1` exactly when the
uniform draw exceeds 0.5). -/
theorem strict_threshold_boundaries (spec : VoltageSpecConfig)
    (horder : spec.logicLowMax ≤ spec.logicHighMin) (last : Fin 2) (r : ℚ)
    (ff : DFlipFlop) (inp : ProcessInput) (hreset : inp.resetActive = false)
    (hrise : risingEdge spec ff inp.clkVoltage)
    (hd : inp.dVoltage = spec.logicHighMin ∨ inp.dVoltage = spec.logicLowMax) :
    clkDiscriminate spec spec.logicHighMin last = last ∧
    clkDiscriminate spec spec.logicLowMax last = last ∧
    sampleD spec spec.logicHighMin r = (if r > 1/2 then 1 else 0) ∧
    sampleD spec spec.logicLowMax r = (if r > 1/2 then 1 else 0) ∧
    (ff.process spec inp).qSignal.targetLogic = (if inp.metaRand > 1/2 then 1 else 0) := by
  have hc1 : clkDiscriminate spec spec.logicHighMin last = last := by
    rw [clkDiscriminate, if_neg (lt_irrefl _), if_neg (not_lt.mpr horder)]
  have hc2 : clkDiscriminate spec spec.logicLowMax last = last := by
    rw [clkDiscriminate, if_neg (not_lt.mpr horder), if_neg (lt_irrefl _)]
  have hs1 : ∀ r' : ℚ, sampleD spec spec.logicHighMin r' = (if r' > 1/2 then 1 else 0) := by
    intro r'
    rw [sampleD, if_neg (lt_irrefl _), if_neg (not_lt.mpr horder)]
  have hs2 : ∀ r' : ℚ, sampleD spec spec.logicLowMax r' = (if r' > 1/2 then 1 else 0) := by
    intro r'
    rw [sampleD, if_neg (not_lt.mpr horder), if_neg (lt_irrefl _)]
  refine ⟨hc1, hc2, hs1 r, hs2 r, ?_⟩
  rw [process_targetLogic spec ff inp hreset,
    if_pos ((risingEdge_iff spec ff inp.clkVoltage).mp hrise)]
  rcases hd with h | h
  · rw [h, hs1 inp.metaRand]
  · rw [h, hs2 inp.metaRand]

/-- Witness for C10: D exactly at `logicHighMin` (1.0 V) on a rising edge with
draw 0.6 > 0.5 resolves to 1 by the coin flip. -/
theorem strict_threshold_boundaries_witness :
    ((mkDFlipFlop defaultSpecs).process defaultSpecs
      ⟨1, 2, false, 3/5, 0⟩).qSignal.targetLogic = 1 := by
  have horder : defaultSpecs.logicLowMax ≤ defaultSpecs.logicHighMin := by
    norm_num [defaultSpecs]
  have hrise : risingEdge defaultSpecs (mkDFlipFlop defaultSpecs)
      ((⟨1, 2, false, 3/5, 0⟩ : ProcessInput).clkVoltage) := by
    refine ⟨rfl, ?_⟩
    norm_num [clkDiscriminate, defaultSpecs, mkDFlipFlop]
  have h := (strict_threshold_boundaries defaultSpecs horder 0 0 (mkDFlipFlop defaultSpecs)
    ⟨1, 2, false, 3/5, 0⟩ rfl hrise (Or.inl rfl)).2.2.2.2
  rw [h]
  norm_num

end DffSim

namespace DffSim

theorem processIter_reset_lastClkState (spec : VoltageSpecConfig) (ff : DFlipFlop)
    (rs : List ProcessInput) (hrs : ∀ i ∈ rs, i.resetActive = true) :
    (processIter spec ff rs).lastClkState = ff.lastClkState := by
  induction rs generalizing ff with
  | nil => rfl
  | cons i is ih =>
    have hstep : processIter spec ff (i :: is) = processIter spec (ff.process spec i) is := rfl
    rw [hstep, ih (ff.process spec i) (fun j hj => hrs j (List.mem_cons_of_mem i hj)),
      process_reset_eq spec ff i (hrs i (List.mem_cons_self i is))]

/-- Claim C9: a reset call leaves `lastClkState` unchanged and mutates only the
output signal's `targetLogic` and `currentValue`; hence if the clock traverses
from below `logicLowMax` to above `logicHighMin` entirely while reset is held
(having started from discriminated state 0), the first call after release sees
a rising edge and samples D at that call. -/
theorem reset_preserves_edge_detection (spec : VoltageSpecConfig) (ff : DFlipFlop)
    (inp : ProcessInput) (hreset : inp.resetActive = true)
    (h0 : ff.lastClkState = 0)
    (rs : List ProcessInput) (hrs : ∀ i ∈ rs, i.resetActive = true)
    (rel : ProcessInput) (hrel : rel.resetActive = false)
    (hclk : rel.clkVoltage > spec.logicHighMin) :
    ((ff.process spec inp).lastClkState = ff.lastClkState ∧
      (ff.process spec inp).qSignal.noiseLevel = ff.qSignal.noiseLevel ∧
      (ff.process spec inp).qSignal.baseHigh = ff.qSignal.baseHigh ∧
      (ff.process spec inp).qSignal.baseLow = ff.qSignal.baseLow ∧
      (ff.process spec inp).qSignal.smoothingFactor = ff.qSignal.smoothingFactor) ∧
    (processIter spec ff rs).lastClkState = 0 ∧
    risingEdge spec (processIter spec ff rs) rel.clkVoltage ∧
    ((processIter spec ff rs).process spec rel).qSignal.targetLogic =
      sampleD spec rel.dVoltage rel.metaRand := by
  have hlast : (processIter spec ff rs).lastClkState = 0 :=
    (processIter_reset_lastClkState spec ff rs hrs).trans h0
  have hrise : risingEdge spec (processIter spec ff rs) rel.clkVoltage := by
    refine ⟨hlast, ?_⟩
    rw [hlast, clkDiscriminate, if_pos hclk]
  refine ⟨?_, hlast, hrise, ?_⟩
  · rw [process_reset_eq spec ff inp hreset]
    exact ⟨rfl, rfl, rfl, rfl, rfl⟩
  · rw [process_targetLogic spec _ rel hrel, if_pos ((risingEdge_iff _ _ _).mp hrise)]

/-- Witness for C9: hold reset through a clock low→high traversal, then
release with CLK = 2.0 V and D = 1.5 V: D is sampled, so Q's target is 1. -/
theorem reset_preserves_edge_detection_witness :
    ((processIter defaultSpecs (mkDFlipFlop defaultSpecs) [⟨0, 2, true, 0, 0⟩]).process
      defaultSpecs ⟨3/2, 2, false, 0, 0⟩).qSignal.targetLogic = 1 := by
  have hclk : (⟨3/2, 2, false, 0, 0⟩ : ProcessInput).clkVoltage > defaultSpecs.logicHighMin := by
    norm_num [defaultSpecs]
  have hrs : ∀ i ∈ [(⟨0, 2, true, 0, 0⟩ : ProcessInput)], i.resetActive = true := by
    intro i hi
    rcases List.mem_cons.mp hi with h | h
    · subst h; rfl
    · cases h
  have h := (reset_preserves_edge_detection defaultSpecs (mkDFlipFlop defaultSpecs)
    ⟨0, 0, true, 0, 0⟩ rfl rfl [⟨0, 2, true, 0, 0⟩] hrs ⟨3/2, 2, false, 0, 0⟩ rfl hclk).2.2.2
  rw [h, sampleD_high]
  norm_num [defaultSpecs]

end DffSim

namespace DffSim

theorem foldl_take_succ {α β : Type} (f : β → α → β) (b : β) (l : List α) (n : ℕ)
    (hn : n < l.length) :
    (l.take (n+1)).foldl f b = f ((l.take n).foldl f b) (l.get ⟨n, hn⟩) := by
  have h : l.take (n+1) = l.take n ++ [l.get ⟨n, hn⟩] := by
    rw [List.take_succ]
    simp [List.getElem?_eq_getElem hn]
  rw [h, List.foldl_append]
  rfl

/-- Claim C3: over any `process` sequence with reset inactive and D held at a
fixed voltage strictly above `logicHighMin`, if the discriminated clock rises
from 0 to 1 exactly once — at call `i0` — then, starting from a fresh
flip-flop state, `qSignal.targetLogic` is 0 after every call before `i0`,
becomes 1 exactly at call `i0`, and remains 1 for every later call. -/
theorem edge_triggered_sampling (spec : VoltageSpecConfig)
    (d : ℚ) (hd : d > spec.logicHighMin)
    (is : List ProcessInput)
    (hin : ∀ i ∈ is, i.resetActive = false ∧ i.dVoltage = d)
    (ff0 : DFlipFlop) (hq : ff0.qSignal.targetLogic = 0) (hclk0 : ff0.lastClkState = 0)
    (i0 : ℕ) (hi0 : i0 < is.length)
    (hrise : risingEdge spec (processIter spec ff0 (is.take i0))
      (is.get ⟨i0, hi0⟩).clkVoltage)
    (huniq : ∀ j (hj : j < is.length),
      risingEdge spec (processIter spec ff0 (is.take j)) (is.get ⟨j, hj⟩).clkVoltage →
        j = i0) :
    ∀ n ≤ is.length,
      (processIter spec ff0 (is.take n)).qSignal.targetLogic =
        if i0 < n then 1 else 0 := by
  intro n
  induction n with
  | zero =>
    intro _
    simpa [processIter] using hq
  | succ n ih =>
    intro hn1
    have hn : n < is.length := Nat.lt_of_succ_le hn1
    have hstep : processIter spec ff0 (is.take (n+1)) =
        (processIter spec ff0 (is.take n)).process spec (is.get ⟨n, hn⟩) :=
      foldl_take_succ _ ff0 is n hn
    obtain ⟨hres, hdv⟩ := hin _ (List.get_mem is n hn)
    rw [hstep, process_targetLogic spec _ _ hres]
    by_cases hedge : (processIter spec ff0 (is.take n)).lastClkState = 0 ∧
        clkDiscriminate spec (is.get ⟨n, hn⟩).clkVoltage
          (processIter spec ff0 (is.take n)).lastClkState = 1
    · have hn0 : n = i0 := huniq n hn hedge
      rw [if_pos hedge, hdv, sampleD_high spec d _ hd]
      subst hn0
      rw [if_pos (Nat.lt_succ_self n)]
    · rw [if_neg hedge, ih (le_of_lt hn)]
      rcases lt_trichotomy i0 n with h | h | h
      · rw [if_pos h, if_pos (Nat.lt_succ_of_lt h)]
      · exfalso
        subst h
        exact hedge hrise
      · rw [if_neg (by omega : ¬ i0 < n), if_neg (by omega : ¬ i0 < n + 1)]

/-- Witness for C3: CLK 2.0 V arriving with `lastClkState = 0` gives the one
rising edge at call 0; D is fixed at 1.5 V. -/
theorem edge_triggered_sampling_witness :
    ((3:ℚ)/2 > defaultSpecs.logicHighMin) ∧
    ∀ n ≤ ([(⟨3/2, 2, false, 0, 0⟩ : ProcessInput)]).length,
      (processIter defaultSpecs (mkDFlipFlop defaultSpecs)
        (([(⟨3/2, 2, false, 0, 0⟩ : ProcessInput)]).take n)).qSignal.targetLogic =
        if 0 < n then 1 else 0 := by
  have hd : (3:ℚ)/2 > defaultSpecs.logicHighMin := by norm_num [defaultSpecs]
  have hin : ∀ i ∈ [(⟨3/2, 2, false, 0, 0⟩ : ProcessInput)],
      i.resetActive = false ∧ i.dVoltage = 3/2 := by
    intro i hi
    rcases List.mem_cons.mp hi with h | h
    · subst h; exact ⟨rfl, rfl⟩
    · cases h
  have hi0 : 0 < ([(⟨3/2, 2, false, 0, 0⟩ : ProcessInput)]).length := by norm_num
  have hrise : risingEdge defaultSpecs
      (processIter defaultSpecs (mkDFlipFlop defaultSpecs)
        (([(⟨3/2, 2, false, 0, 0⟩ : ProcessInput)]).take 0))
      (([(⟨3/2, 2, false, 0, 0⟩ : ProcessInput)].get ⟨0, hi0⟩).clkVoltage) := by
    refine ⟨rfl, ?_⟩
    norm_num [processIter, clkDiscriminate, defaultSpecs, mkDFlipFlop, mkSignal]
  have huniq : ∀ j (hj : j < ([(⟨3/2, 2, false, 0, 0⟩ : ProcessInput)]).length),
      risingEdge defaultSpecs (processIter defaultSpecs (mkDFlipFlop defaultSpecs)
        (([(⟨3/2, 2, false, 0, 0⟩ : ProcessInput)]).take j))
        (([(⟨3/2, 2, false, 0, 0⟩ : ProcessInput)].get ⟨j, hj⟩).clkVoltage) → j = 0 := by
    intro j hj _
    simpa using hj
  exact ⟨hd, edge_triggered_sampling defaultSpecs (3/2) hd _ hin (mkDFlipFlop defaultSpecs)
    rfl rfl 0 hi0 hrise huniq⟩

end DffSim

namespace DffSim

theorem sTarget_update (spec : VoltageSpecConfig) (s : Signal) (z : ℚ) :
    sTarget (Signal.update spec s z) = sTarget s := rfl

theorem updateIter_fields (spec : VoltageSpecConfig) (s : Signal) (zs : List ℚ) :
    (updateIter spec s zs).targetLogic = s.targetLogic ∧
    (updateIter spec s zs).noiseLevel = s.noiseLevel ∧
    (updateIter spec s zs).baseHigh = s.baseHigh ∧
    (updateIter spec s zs).baseLow = s.baseLow ∧
    (updateIter spec s zs).smoothingFactor = s.smoothingFactor := by
  induction zs generalizing s with
  | nil => exact ⟨rfl, rfl, rfl, rfl, rfl⟩
  | cons z zs ih => exact ih (Signal.update spec s z)

theorem sTarget_updateIter (spec : VoltageSpecConfig) (s : Signal) (zs : List ℚ) :
    sTarget (updateIter spec s zs) = sTarget s := by
  induction zs generalizing s with
  | nil => rfl
  | cons z zs ih => exact ih (Signal.update spec s z)

/-- With `noiseLevel = 0` and both the state and the target inside the clamp
window, one `update` call is exactly the unclamped smoothing step. -/
theorem update_noiseless (spec : VoltageSpecConfig) (s : Signal)
    (hnl : s.noiseLevel = 0) (hf0 : 0 ≤ s.smoothingFactor) (hf1 : s.smoothingFactor ≤ 1)
    (hc1 : spec.clampMin ≤ s.currentValue) (hc2 : s.currentValue ≤ spec.systemMax)
    (hT1 : spec.clampMin ≤ sTarget s) (hT2 : sTarget s ≤ spec.systemMax) (z : ℚ) :
    (Signal.update spec s z).currentValue =
      s.currentValue + (sTarget s - s.currentValue) * s.smoothingFactor := by
  rw [update_currentValue]
  have hnv : (if s.targetLogic = 1 then s.baseHigh else s.baseLow) + z * s.noiseLevel
      = sTarget s := by
    rw [hnl, sTarget]; ring
  rw [hnv]
  have hlo : spec.clampMin ≤
      s.currentValue + (sTarget s - s.currentValue) * s.smoothingFactor := by
    rcases le_total s.currentValue (sTarget s) with h | h
    · nlinarith [mul_nonneg (sub_nonneg.mpr h) hf0]
    · nlinarith [mul_nonneg (sub_nonneg.mpr h) (sub_nonneg.mpr hf1)]
  have hhi : s.currentValue + (sTarget s - s.currentValue) * s.smoothingFactor ≤
      spec.systemMax := by
    rcases le_total s.currentValue (sTarget s) with h | h
    · nlinarith [mul_nonneg (sub_nonneg.mpr h) (sub_nonneg.mpr hf1)]
    · nlinarith [mul_nonneg (sub_nonneg.mpr h) hf0]
  rw [min_eq_right hhi, max_eq_right hlo]

/-- Claim C5: with `noiseLevel = 0`, constant `targetLogic`,
`smoothingFactor ∈ (0,1]` and the target voltage inside
`[clampMin, systemMax]`, the residual error after `n` calls is exactly
`error₀ · (1 − smoothingFactor)ⁿ`, and each call moves `currentValue`
monotonically toward the target (the error never grows in magnitude and the
new value lies between the old value and the target). -/
theorem signal_convergence (spec : VoltageSpecConfig) (s : Signal)
    (hnl : s.noiseLevel = 0)
    (hf0 : 0 < s.smoothingFactor) (hf1 : s.smoothingFactor ≤ 1)
    (hc1 : spec.clampMin ≤ s.currentValue) (hc2 : s.currentValue ≤ spec.systemMax)
    (hT1 : spec.clampMin ≤ sTarget s) (hT2 : sTarget s ≤ spec.systemMax)
    (zs : List ℚ) :
    (∀ n ≤ zs.length,
      sTarget s - (updateIter spec s (zs.take n)).currentValue =
        (sTarget s - s.currentValue) * (1 - s.smoothingFactor)^n) ∧
    (∀ n < zs.length,
      |sTarget s - (updateIter spec s (zs.take (n+1))).currentValue| ≤
        |sTarget s - (updateIter spec s (zs.take n)).currentValue| ∧
      min ((updateIter spec s (zs.take n)).currentValue) (sTarget s) ≤
        (updateIter spec s (zs.take (n+1))).currentValue ∧
      (updateIter spec s (zs.take (n+1))).currentValue ≤
        max ((updateIter spec s (zs.take n)).currentValue) (sTarget s)) := by
  have hcs : spec.clampMin ≤ spec.systemMax := le_trans hT1 hT2
  have key : ∀ n, n ≤ zs.length →
      (sTarget s - (updateIter spec s (zs.take n)).currentValue =
        (sTarget s - s.currentValue) * (1 - s.smoothingFactor)^n) ∧
      spec.clampMin ≤ (updateIter spec s (zs.take n)).currentValue ∧
      (updateIter spec s (zs.take n)).currentValue ≤ spec.systemMax := by
    intro n
    induction n with
    | zero =>
      intro _
      refine ⟨?_, hc1, hc2⟩
      rw [pow_zero, mul_one]
      rfl
    | succ n ih =>
      intro hn1
      have hn : n < zs.length := Nat.lt_of_succ_le hn1
      obtain ⟨ihf, ihc1, ihc2⟩ := ih (le_of_lt hn)
      have hstep : updateIter spec s (zs.take (n+1)) =
          Signal.update spec (updateIter spec s (zs.take n)) (zs.get ⟨n, hn⟩) :=
        foldl_take_succ _ s zs n hn
      obtain ⟨htl, hnl2, hbh, hbl, hsf⟩ := updateIter_fields spec s (zs.take n)
      have hTeq : sTarget (updateIter spec s (zs.take n)) = sTarget s :=
        sTarget_updateIter spec s (zs.take n)
      have hval := update_noiseless spec (updateIter spec s (zs.take n))
        (hnl2.trans hnl) (hsf ▸ le_of_lt hf0) (hsf ▸ hf1) ihc1 ihc2
        (hTeq ▸ hT1) (hTeq ▸ hT2) (zs.get ⟨n, hn⟩)
      refine ⟨?_, ?_, ?_⟩
      · rw [hstep, hval, hTeq, hsf]
        rw [pow_succ]
        nlinarith [ihf]
      · rw [hstep]
        exact (update_clamped spec hcs _ _).1
      · rw [hstep]
        exact (update_clamped spec hcs _ _).2
  refine ⟨fun n hn => (key n hn).1, ?_⟩
  intro n hn
  have h1 := (key n (le_of_lt hn)).1
  have h2 := (key (n+1) hn).1
  have hrel : sTarget s - (updateIter spec s (zs.take (n+1))).currentValue =
      (sTarget s - (updateIter spec s (zs.take n)).currentValue) *
        (1 - s.smoothingFactor) := by
    rw [h1, h2, pow_succ]
    ring
  have habs1 : |(1 : ℚ) - s.smoothingFactor| ≤ 1 := by
    rw [abs_of_nonneg (by linarith)]
    linarith
  refine ⟨?_, ?_, ?_⟩
  · rw [hrel, abs_mul]
    calc |sTarget s - (updateIter spec s (zs.take n)).currentValue| *
        |1 - s.smoothingFactor| ≤
        |sTarget s - (updateIter spec s (zs.take n)).currentValue| * 1 :=
          mul_le_mul_of_nonneg_left habs1 (abs_nonneg _)
      _ = |sTarget s - (updateIter spec s (zs.take n)).currentValue| := mul_one _
  · rcases le_total ((updateIter spec s (zs.take n)).currentValue) (sTarget s) with h | h
    · rw [min_eq_left h]
      nlinarith [mul_nonneg (sub_nonneg.mpr h) (sub_nonneg.mpr hf1)]
    · rw [min_eq_right h]
      nlinarith [mul_nonneg (sub_nonneg.mpr h) (le_of_lt hf0)]
  · rcases le_total ((updateIter spec s (zs.take n)).currentValue) (sTarget s) with h | h
    · rw [max_eq_right h]
      nlinarith [mul_nonneg (sub_nonneg.mpr h) (le_of_lt hf0)]
    · rw [max_eq_left h]
      nlinarith [mul_nonneg (sub_nonneg.mpr h) (sub_nonneg.mpr hf1)]

end DffSim

namespace DffSim

/-- Witness for C5: a noiseless signal driving toward `baseHigh = 2` from 0
with smoothing factor 1/2; the noise draws are irrelevant at `noiseLevel = 0`. -/
theorem signal_convergence_witness :
    ((0:ℚ) < (1/2 : ℚ) ∧ (1/2 : ℚ) ≤ 1 ∧
      defaultSpecs.clampMin ≤ sTarget ⟨0, 1, 0, 2, 0, 1/2⟩ ∧
      sTarget (⟨0, 1, 0, 2, 0, 1/2⟩ : Signal) ≤ defaultSpecs.systemMax) ∧
    ∀ n ≤ ([9, -4] : List ℚ).length,
      sTarget (⟨0, 1, 0, 2, 0, 1/2⟩ : Signal) -
        (updateIter defaultSpecs ⟨0, 1, 0, 2, 0, 1/2⟩
          (([9, -4] : List ℚ).take n)).currentValue =
        (sTarget (⟨0, 1, 0, 2, 0, 1/2⟩ : Signal) - 0) * (1 - 1/2)^n := by
  have hT : sTarget (⟨0, 1, 0, 2, 0, 1/2⟩ : Signal) = 2 := by
    simp [sTarget]
  have h1 : (0:ℚ) < (1/2 : ℚ) := by norm_num
  have h2 : (1/2 : ℚ) ≤ 1 := by norm_num
  have h3 : defaultSpecs.clampMin ≤ sTarget ⟨0, 1, 0, 2, 0, 1/2⟩ := by
    rw [hT]; norm_num [defaultSpecs]
  have h4 : sTarget (⟨0, 1, 0, 2, 0, 1/2⟩ : Signal) ≤ defaultSpecs.systemMax := by
    rw [hT]; norm_num [defaultSpecs]
  exact ⟨⟨h1, h2, h3, h4⟩,
    (signal_convergence defaultSpecs ⟨0, 1, 0, 2, 0, 1/2⟩ rfl h1 h2
      (by norm_num [defaultSpecs]) (by norm_num [defaultSpecs]) h3 h4 [9, -4]).1⟩

end DffSim

namespace DffSim

/-- Claim C6: a stepper tick advances the phase by
`clockSpeed · deltaTime · baseFrameRate`; when the advanced phase exceeds
`2π` the single `2π` subtraction lands it back inside `[0, 2π)` (given the
phase invariant `0 ≤ phase ≤ 2π` and an advance in `[0, 2π)`), and the wrap
never changes the sine — hence the derived square-wave clock logic — of the
phase. -/
theorem clock_phase_wrap (phase speed dt : ℝ)
    (h0 : 0 ≤ phase) (h2 : phase ≤ 2 * Real.pi)
    (ha0 : 0 ≤ speed * dt * (baseFrameRate : ℝ))
    (ha2 : speed * dt * (baseFrameRate : ℝ) < 2 * Real.pi) :
    (0 ≤ stepClockPhase phase speed dt ∧ stepClockPhase phase speed dt ≤ 2 * Real.pi) ∧
    (phase + speed * dt * (baseFrameRate : ℝ) > 2 * Real.pi →
      0 ≤ stepClockPhase phase speed dt ∧ stepClockPhase phase speed dt < 2 * Real.pi) ∧
    Real.sin (stepClockPhase phase speed dt) =
      Real.sin (phase + speed * dt * (baseFrameRate : ℝ)) ∧
    clockTargetLogic (stepClockPhase phase speed dt) =
      clockTargetLogic (phase + speed * dt * (baseFrameRate : ℝ)) := by
  have hsin : Real.sin (stepClockPhase phase speed dt) =
      Real.sin (phase + speed * dt * (baseFrameRate : ℝ)) := by
    rw [stepClockPhase]
    by_cases hp : phase + speed * dt * (baseFrameRate : ℝ) > 2 * Real.pi
    · simp only [if_pos hp]
      rw [Real.sin_sub_two_pi]
    · simp only [if_neg hp]
  refine ⟨?_, ?_, hsin, ?_⟩
  · rw [stepClockPhase]
    by_cases hp : phase + speed * dt * (baseFrameRate : ℝ) > 2 * Real.pi
    · simp only [if_pos hp]
      constructor <;> linarith
    · simp only [if_neg hp]
      push_neg at hp
      constructor <;> linarith
  · intro hp
    rw [stepClockPhase]
    simp only [if_pos hp]
    constructor <;> linarith
  · rw [clockTargetLogic, clockTargetLogic, hsin]

/-- Witness for C6 at phase `π` with an advance of exactly `π` (so the
advanced phase `2π` does not trigger the wrap) — the hypotheses are
discharged with `π > 0`. -/
theorem clock_phase_wrap_witness :
    ((0:ℝ) ≤ Real.pi ∧ Real.pi ≤ 2 * Real.pi ∧
      0 ≤ Real.pi * 1 * (baseFrameRate : ℝ) / 60 * 1 * 1) ∧
    Real.sin (stepClockPhase Real.pi (Real.pi / 60) 1) =
      Real.sin (Real.pi + Real.pi / 60 * 1 * (baseFrameRate : ℝ)) := by
  have hpi : (0:ℝ) < Real.pi := Real.pi_pos
  have hbf : ((baseFrameRate : ℚ) : ℝ) = 60 := by
    norm_num [baseFrameRate]
  have h0 : (0:ℝ) ≤ Real.pi := le_of_lt hpi
  have h2 : Real.pi ≤ 2 * Real.pi := by linarith
  have ha0 : 0 ≤ Real.pi / 60 * 1 * (baseFrameRate : ℝ) := by
    rw [hbf]; linarith
  have ha2 : Real.pi / 60 * 1 * (baseFrameRate : ℝ) < 2 * Real.pi := by
    rw [hbf]; nlinarith
  refine ⟨⟨h0, h2, ?_⟩,
    (clock_phase_wrap Real.pi (Real.pi / 60) 1 h0 h2 ha0 ha2).2.2.1⟩
  rw [hbf]
  nlinarith

end DffSim

namespace DffSim

theorem uiValidate_none_implies_some (dflt : VoltageSpecConfig) (v : PartialSpec)
    (h : uiValidate dflt v = none) :
    ∃ lhm llm ohm ohx olm : ℚ,
      v.logicHighMin = some lhm ∧ v.logicLowMax = some llm ∧
      v.outputHighMin = some ohm ∧ v.outputHighMax = some ohx ∧
      v.outputLowMax = some olm := by
  obtain ⟨a, b, c, d, e, f⟩ := v
  cases a <;> cases b <;> cases c <;> cases d <;> cases e <;>
    first
      | exact ⟨_, _, _, _, _, rfl, rfl, rfl, rfl, rfl⟩
      | (exfalso; simp [uiValidate] at h)

theorem uiValidate_none_iff (dflt : VoltageSpecConfig)
    (lhm llm ohm ohx olm : ℚ) (sm : Option ℚ) :
    uiValidate dflt ⟨some lhm, some llm, some ohm, some ohx, some olm, sm⟩ = none ↔
      ¬ (llm < dflt.clampMin ∨ olm < dflt.clampMin ∨ lhm > dflt.systemMax ∨
        ohx > dflt.systemMax ∨ ohm < lhm ∨ ohx < ohm ∨ llm ≥ lhm ∨ olm ≥ llm) := by
  have hred : uiValidate dflt ⟨some lhm, some llm, some ohm, some ohx, some olm, sm⟩ =
      if llm < dflt.clampMin ∨ olm < dflt.clampMin ∨
          lhm > dflt.systemMax ∨ ohx > dflt.systemMax ∨
          ohm < lhm ∨ ohx < ohm ∨ llm ≥ lhm ∨ olm ≥ llm then
        some uiRangeMsg
      else none := rfl
  rw [hred]
  split_ifs with h
  · simp [h]
  · simp [h]

theorem settingsValidate_none_iff (dflt : VoltageSpecConfig)
    (lhm llm ohm ohx olm : ℚ) (sm : Option ℚ) :
    settingsValidate dflt ⟨some lhm, some llm, some ohm, some ohx, some olm, sm⟩ = none ↔
      ¬ (llm < dflt.clampMin ∨ olm < dflt.clampMin ∨ lhm > dflt.systemMax ∨
        ohx > dflt.systemMax ∨ ohm < lhm ∨ ohx < ohm ∨ llm ≥ lhm ∨ olm ≥ llm) := by
  simp only [settingsValidate, jsLt, jsGt, jsGe]
  split_ifs with h <;>
    simp only [Bool.or_eq_true, decide_eq_true_eq] at h
  · constructor
    · intro hc; exact absurd hc (by simp)
    · intro hnd; exact absurd (by tauto) hnd
  · constructor
    · intro _; intro hd; exact h (by tauto)
    · intro _; rfl

theorem constraints_of_not_reject (dflt : VoltageSpecConfig) (lhm llm ohm ohx olm : ℚ)
    (h : ¬ (llm < dflt.clampMin ∨ olm < dflt.clampMin ∨ lhm > dflt.systemMax ∨
      ohx > dflt.systemMax ∨ ohm < lhm ∨ ohx < ohm ∨ llm ≥ lhm ∨ olm ≥ llm)) :
    specConstraintsOk dflt lhm llm ohm ohx olm := by
  push_neg at h
  obtain ⟨n1, n2, n3, n4, n5, n6, n7, n8⟩ := h
  refine ⟨⟨?_, ?_⟩, ⟨?_, ?_⟩, ⟨?_, ?_⟩, ⟨?_, ?_⟩, ⟨?_, ?_⟩, ?_, ?_, ?_, ?_⟩ <;> linarith

end DffSim

namespace DffSim

/-- Claim C7, amended: the settings-form `validate` of the `main/ui` revision
rejects every candidate with a missing or non-numeric field; on all-numeric
candidates, both that `validate` and the `src/settings.ts` `validate` reject
every candidate with a value outside `[clampMin, systemMax]` or a broken
ordering inequality, and passing validation implies all range and ordering
constraints; whenever validation rejects, the submit handler leaves the
active configuration untouched, and on success all candidate fields take
effect together.  (The `src/settings.ts` `validate` does *not* reject
missing/NaN fields — see the counterexample.) -/
theorem voltage_spec_validation (dflt spec : VoltageSpecConfig) (v : PartialSpec)
    (lhm llm ohm ohx olm : ℚ) :
    ((v.logicHighMin = none ∨ v.logicLowMax = none ∨ v.outputHighMin = none ∨
        v.outputHighMax = none ∨ v.outputLowMax = none) → uiValidate dflt v ≠ none) ∧
    (v.logicHighMin = some lhm → v.logicLowMax = some llm → v.outputHighMin = some ohm →
      v.outputHighMax = some ohx → v.outputLowMax = some olm →
      ((¬ specConstraintsOk dflt lhm llm ohm ohx olm →
          uiValidate dflt v ≠ none ∧ settingsValidate dflt v ≠ none) ∧
        (uiValidate dflt v = none → specConstraintsOk dflt lhm llm ohm ohx olm) ∧
        (settingsValidate dflt v = none → specConstraintsOk dflt lhm llm ohm ohx olm) ∧
        (uiValidate dflt v = none →
          submitSettings uiValidate dflt spec v =
            { spec with
              logicHighMin := lhm
              logicLowMax := llm
              outputHighMin := ohm
              outputHighMax := ohx
              outputLowMax := olm
              systemMax := v.systemMax.getD spec.systemMax }))) ∧
    (uiValidate dflt v ≠ none → submitSettings uiValidate dflt spec v = spec) ∧
    (settingsValidate dflt v ≠ none → submitSettings settingsValidate dflt spec v = spec) := by
  refine ⟨?_, ?_, ?_, ?_⟩
  · intro hmiss hnone
    obtain ⟨l1, l2, l3, l4, l5, e1, e2, e3, e4, e5⟩ :=
      uiValidate_none_implies_some dflt v hnone
    rcases hmiss with h | h | h | h | h <;> simp_all
  · intro h1 h2 h3 h4 h5
    obtain ⟨a, b, c, d, e, f⟩ := v
    have e1 : a = some lhm := h1
    have e2 : b = some llm := h2
    have e3 : c = some ohm := h3
    have e4 : d = some ohx := h4
    have e5 : e = some olm := h5
    subst e1; subst e2; subst e3; subst e4; subst e5
    refine ⟨?_, ?_, ?_, ?_⟩
    · intro hno
      constructor
      · intro hnone
        exact hno (constraints_of_not_reject dflt lhm llm ohm ohx olm
          ((uiValidate_none_iff dflt lhm llm ohm ohx olm f).mp hnone))
      · intro hnone
        exact hno (constraints_of_not_reject dflt lhm llm ohm ohx olm
          ((settingsValidate_none_iff dflt lhm llm ohm ohx olm f).mp hnone))
    · intro hnone
      exact constraints_of_not_reject dflt lhm llm ohm ohx olm
        ((uiValidate_none_iff dflt lhm llm ohm ohx olm f).mp hnone)
    · intro hnone
      exact constraints_of_not_reject dflt lhm llm ohm ohx olm
        ((settingsValidate_none_iff dflt lhm llm ohm ohx olm f).mp hnone)
    · intro hnone
      rw [submitSettings, if_pos hnone]
      simp [assignSpec]
  · intro hne
    rw [submitSettings, if_neg hne]
  · intro hne
    rw [submitSettings, if_neg hne]

/-- Counterexample for C7 as stated: the `validate` of `src/settings.ts`
accepts a candidate whose every field is missing/`NaN` — all its JavaScript
comparisons are false on `NaN`, so nothing is rejected. -/
theorem validation_accepts_nan_counterexample :
    settingsValidate defaultSpecs ⟨none, none, none, none, none, none⟩ = none := rfl

/-- Witness for C7: the `main/ui` `validate` does reject an all-missing
candidate. -/
theorem voltage_spec_validation_witness :
    uiValidate defaultSpecs ⟨none, none, none, none, none, none⟩ ≠ none :=
  (voltage_spec_validation defaultSpecs defaultSpecs ⟨none, none, none, none, none, none⟩
    0 0 0 0 0).1 (Or.inl rfl)

end DffSim

namespace DffSim

/-- Claim C8: after `applySettings` with a partial spec, the `baseHigh`/`baseLow`
pairs of D, CLK and Q are exactly their derivations from the merged spec
(CLK's `baseLow` stays the constant 0 it always is), every signal's
`currentValue` is snapped to the steady-state level matching its unchanged
`targetLogic`, and the clock phase is reset to 0. -/
theorem applySettings_rederives (e : Engine) (settings : PartialSpec)
    (hclkLow : e.signalClk.baseLow = 0) :
    (e.applySettings settings).specs = assignSpec e.specs settings ∧
    (e.applySettings settings).signalD.baseHigh =
      ((assignSpec e.specs settings).logicHighMin +
        (assignSpec e.specs settings).systemMax) / 2 ∧
    (e.applySettings settings).signalD.baseLow =
      (assignSpec e.specs settings).logicLowMax / 2 ∧
    (e.applySettings settings).signalClk.baseHigh =
      (assignSpec e.specs settings).outputHighMax ∧
    (e.applySettings settings).signalClk.baseLow = 0 ∧
    (e.applySettings settings).dff.qSignal.baseHigh =
      ((assignSpec e.specs settings).outputHighMin +
        (assignSpec e.specs settings).outputHighMax) / 2 ∧
    (e.applySettings settings).dff.qSignal.baseLow =
      (assignSpec e.specs settings).outputLowMax / 2 ∧
    (e.applySettings settings).signalD.targetLogic = e.signalD.targetLogic ∧
    (e.applySettings settings).signalClk.targetLogic = e.signalClk.targetLogic ∧
    (e.applySettings settings).dff.qSignal.targetLogic = e.dff.qSignal.targetLogic ∧
    (e.applySettings settings).signalD.currentValue =
      (if (e.applySettings settings).signalD.targetLogic = 1
        then (e.applySettings settings).signalD.baseHigh
        else (e.applySettings settings).signalD.baseLow) ∧
    (e.applySettings settings).signalClk.currentValue =
      (if (e.applySettings settings).signalClk.targetLogic = 1
        then (e.applySettings settings).signalClk.baseHigh
        else (e.applySettings settings).signalClk.baseLow) ∧
    (e.applySettings settings).dff.qSignal.currentValue =
      (if (e.applySettings settings).dff.qSignal.targetLogic = 1
        then (e.applySettings settings).dff.qSignal.baseHigh
        else (e.applySettings settings).dff.qSignal.baseLow) ∧
    (e.applySettings settings).clockPhase = 0 :=
  ⟨rfl, rfl, rfl, rfl, hclkLow, rfl, rfl, rfl, rfl, rfl, rfl, rfl, rfl, rfl⟩

/-- Witness for C8: raising `logicHighMin` to 1.1 V on the default engine
re-derives the active spec copy. -/
theorem applySettings_rederives_witness :
    ((mkEngine defaultSpecs).applySettings
        ⟨some (11/10), none, none, none, none, none⟩).specs =
      assignSpec (mkEngine defaultSpecs).specs
        ⟨some (11/10), none, none, none, none, none⟩ :=
  (applySettings_rederives (mkEngine defaultSpecs)
    ⟨some (11/10), none, none, none, none, none⟩ rfl).1

end DffSim
